import Mathlib

/-!
Verification of the OptimalBins 2D packing core.

Shallow embedding of the Python sources:
  optimalbins/models/bin.py            (Bin, can_fit, add_item)
  binpacking/models/item.py            (Item, set_position)
  binpacking/algorithms/_2d/bottom_left.py
  binpacking/algorithms/_2d/first_fit.py
  optimalbins/algorithms/_2d/guillotine.py
  optimalbins/algorithms/_2d/maxrects.py

Coordinates and sizes are modelled as integers (the Python code uses
floats, but every operation involved is an order comparison, `+`, `-`,
`*`, `min`/`max`, and every concrete value in the spec and the tests is
integral, so ℤ models the arithmetic exactly).
Python exceptions are modelled with `Except`; since the caller keeps
references to the bins, the error value carries the bin state at the
moment the exception is raised.
-/

/-- Decidable equality for `Except`, so that concrete packing runs can
be checked by `decide`. -/
instance {ε α : Type} [DecidableEq ε] [DecidableEq α] : DecidableEq (Except ε α) :=
  fun x y =>
    match x, y with
    | .ok a, .ok b =>
        if h : a = b then .isTrue (by rw [h])
        else .isFalse (by intro hc; cases hc; exact h rfl)
    | .ok _, .error _ => .isFalse (by intro hc; cases hc)
    | .error _, .ok _ => .isFalse (by intro hc; cases hc)
    | .error a, .error b =>
        if h : a = b then .isTrue (by rw [h])
        else .isFalse (by intro hc; cases hc; exact h rfl)

/-- An axis-aligned rectangle `(x, y, width, height)`; the Python code
uses 4-tuples. -/
structure Rect where
  x : ℤ
  y : ℤ
  w : ℤ
  h : ℤ
deriving DecidableEq, Repr

/-- `Item` from `binpacking/models/item.py` (the fields the 2D packing
algorithms read and write: dimensions, optional depth and the mutable
position; weight/rotation fields are never consulted by the 2D code). -/
structure Item where
  id : String
  width : ℤ
  height : ℤ
  depth : Option ℤ := none
  x : ℤ := 0
  y : ℤ := 0
deriving DecidableEq, Repr

/-- `Item.set_position` (2D form: the `z` branch is inactive when no `z`
argument is passed, which is how all 2D algorithms call it). -/
def setPosition (it : Item) (x y : ℤ) : Item :=
  { it with x := x, y := y }

/-- `Bin` from `optimalbins/models/bin.py`. -/
structure Bin where
  id : String
  width : ℤ
  height : ℤ
  depth : Option ℤ := none
  items : List Item := []
deriving DecidableEq, Repr

/-- `Bin.can_fit`. -/
def canFit (b : Bin) (it : Item) : Bool :=
  match b.depth with
  | some d =>
      match it.depth with
      | none => false
      | some itd =>
          decide (it.width ≤ b.width) && decide (it.height ≤ b.height) &&
            decide (itd ≤ d)
  | none => decide (it.width ≤ b.width) && decide (it.height ≤ b.height)

/-- `Bin.add_item`: returns the updated bin together with the Python
return value (`True` when appended). -/
def addItem (b : Bin) (it : Item) : Bin × Bool :=
  if canFit b it then ({ b with items := b.items ++ [it] }, true)
  else (b, false)

/-! ## BottomLeft2D (`binpacking/algorithms/_2d/bottom_left.py`) -/

/-- `BottomLeft2D.rectangles_overlap`. -/
def rectanglesOverlap (x1 y1 w1 h1 x2 y2 w2 h2 : ℤ) : Bool :=
  !(decide (x1 + w1 ≤ x2) || decide (x2 + w2 ≤ x1) ||
    decide (y1 + h1 ≤ y2) || decide (y2 + h2 ≤ y1))

/-- `BottomLeft2D.overlap`: would placing `it` at `(x, y)` overlap some
item already in `b`? -/
def overlapAt (b : Bin) (it : Item) (x y : ℤ) : Bool :=
  b.items.any fun p =>
    rectanglesOverlap x y it.width it.height p.x p.y p.width p.height

/-- Candidate corners generated by `BottomLeft2D.find_position`:
`(0,0)` then, for each placed item in order, right-of then on-top-of. -/
def candidatePositions (b : Bin) : List (ℤ × ℤ) :=
  (0, 0) :: b.items.foldr
    (fun p acc => (p.x + p.width, p.y) :: (p.x, p.y + p.height) :: acc) []

/-- The filter applied by `BottomLeft2D.find_position`: in bounds and
non-overlapping. -/
def validCandidates (b : Bin) (it : Item) : List (ℤ × ℤ) :=
  (candidatePositions b).filter fun c =>
    decide (c.1 + it.width ≤ b.width) && decide (c.2 + it.height ≤ b.height) &&
      !(overlapAt b it c.1 c.2)

/-- `BottomLeft2D.find_position`: Python sorts the valid candidates by
the key `(y, x)` and takes the head; since the key determines the
candidate completely this equals taking the `(y, x)`-lexicographic
minimum, computed here by a fold. -/
def findPosition (b : Bin) (it : Item) : Option (ℤ × ℤ) :=
  match validCandidates b it with
  | [] => none
  | c :: cs =>
      some (cs.foldl
        (fun best p =>
          if p.2 < best.2 ∨ (p.2 = best.2 ∧ p.1 < best.1) then p else best) c)

/-- The inner bin loop of `BottomLeft2D.pack`: try each existing bin in
order, place into the first that yields a candidate position. -/
def blPlaceInBins (it : Item) : List Bin → Option (List Bin)
  | [] => none
  | b :: rest =>
      match findPosition b it with
      | some c => some ((addItem b (setPosition it c.1 c.2)).1 :: rest)
      | none => (blPlaceInBins it rest).map (b :: ·)

/-- `BottomLeft2D.pack`.  The overflow branch clones the first bin's
dimensions, sets the item position to `(0, 0)` and calls `add_item` on
the fresh bin. -/
def bottomLeftPack : List Item → List Bin → Except String (List Bin)
  | [], bins => .ok bins
  | it :: rest, bins =>
      match blPlaceInBins it bins with
      | some bins' => bottomLeftPack rest bins'
      | none =>
          match bins with
          | [] => .error "No hay un bin base definido para crear uno nuevo."
          | base :: _ =>
              let newBin : Bin :=
                { id := "bin_" ++ toString (bins.length + 1),
                  width := base.width, height := base.height,
                  depth := base.depth, items := [] }
              let it' := setPosition it 0 0
              bottomLeftPack rest (bins ++ [(addItem newBin it').1])

/-! ## FirstFit2D (`binpacking/algorithms/_2d/first_fit.py`) -/

/-- The inner bin loop of `FirstFit2D.pack`: the first bin whose
`can_fit` accepts the item receives it via `add_item`.  No position is
ever assigned by this algorithm. -/
def ffPlaceInBins (it : Item) : List Bin → Option (List Bin)
  | [] => none
  | b :: rest =>
      if canFit b it then some ((addItem b it).1 :: rest)
      else (ffPlaceInBins it rest).map (b :: ·)

/-- `FirstFit2D.pack`. -/
def firstFitPack : List Item → List Bin → Except String (List Bin)
  | [], bins => .ok bins
  | it :: rest, bins =>
      match ffPlaceInBins it bins with
      | some bins' => firstFitPack rest bins'
      | none =>
          match bins with
          | [] => .error "No hay bins iniciales definidos para crear uno nuevo."
          | base :: _ =>
              let newBin : Bin :=
                { id := "bin_" ++ toString (bins.length + 1),
                  width := base.width, height := base.height,
                  depth := base.depth, items := [] }
              firstFitPack rest (bins ++ [(addItem newBin it).1])

/-! ## Guillotine2D (`optimalbins/algorithms/_2d/guillotine.py`) -/

/-- `Guillotine2D.find_position`: first free rectangle admitting the
item, returned together with its index (Python returns `(rx, ry, idx)`
and then pops index `idx`; returning the rectangle as well bundles the
same information). -/
def gFindPosition (it : Item) : List Rect → Option (ℕ × Rect)
  | [] => none
  | r :: rest =>
      if it.width ≤ r.w ∧ it.height ≤ r.h then some (0, r)
      else
        match gFindPosition it rest with
        | some (i, f) => some (i + 1, f)
        | none => none

/-- `Guillotine2D._split_default`. -/
def splitDefault (rect : Rect) (it : Item) (x y : ℤ) : List Rect :=
  let rightWidth := (rect.x + rect.w) - (x + it.width)
  let topHeight := (rect.y + rect.h) - (y + it.height)
  (if 0 < rightWidth then [⟨x + it.width, y, rightWidth, it.height⟩] else []) ++
    (if 0 < topHeight then [⟨rect.x, y + it.height, rect.w, topHeight⟩] else [])

/-- `Guillotine2D._split_alternative`. -/
def splitAlternative (rect : Rect) (it : Item) (x y : ℤ) : List Rect :=
  let horizontalWidth := (rect.x + rect.w) - (x + it.width)
  let verticalHeight := (rect.y + rect.h) - (y + it.height)
  (if 0 < horizontalWidth then [⟨x + it.width, y, horizontalWidth, rect.h⟩] else []) ++
    (if 0 < verticalHeight then [⟨rect.x, y + it.height, it.width, verticalHeight⟩] else [])

/-- `Guillotine2D._split_shorter_side`.  Note: in the `else` branch the
right rectangle is emitted with the FULL original height `rect.h`, not
`it.height`. -/
def splitShorterSide (rect : Rect) (it : Item) (x y : ℤ) : List Rect :=
  let rightLeftover := (rect.x + rect.w) - (x + it.width)
  let topLeftover := (rect.y + rect.h) - (y + it.height)
  if rightLeftover ≤ topLeftover then
    (if 0 < rightLeftover then [⟨x + it.width, y, rightLeftover, it.height⟩] else []) ++
      (if 0 < topLeftover then [⟨rect.x, y + it.height, rect.w, topLeftover⟩] else [])
  else
    (if 0 < topLeftover then [⟨rect.x, y + it.height, rect.w, topLeftover⟩] else []) ++
      (if 0 < rightLeftover then [⟨x + it.width, y, rightLeftover, rect.h⟩] else [])

/-- `Guillotine2D._split_longer_side`.  Same `else`-branch remark as for
`splitShorterSide`. -/
def splitLongerSide (rect : Rect) (it : Item) (x y : ℤ) : List Rect :=
  let rightLeftover := (rect.x + rect.w) - (x + it.width)
  let topLeftover := (rect.y + rect.h) - (y + it.height)
  if topLeftover ≤ rightLeftover then
    (if 0 < rightLeftover then [⟨x + it.width, y, rightLeftover, it.height⟩] else []) ++
      (if 0 < topLeftover then [⟨rect.x, y + it.height, rect.w, topLeftover⟩] else [])
  else
    (if 0 < topLeftover then [⟨rect.x, y + it.height, rect.w, topLeftover⟩] else []) ++
      (if 0 < rightLeftover then [⟨x + it.width, y, rightLeftover, rect.h⟩] else [])

/-- Python `str.lower()`, modelled character-wise (kernel-reducible,
unlike `String.toLower`; identical on the ASCII heuristic names). -/
def lowerString (s : String) : String :=
  ⟨s.data.map Char.toLower⟩

/-- Python `str.replace(c, "")` for a single-character pattern: every
occurrence of `c` is deleted. -/
def removeChar (c : Char) (s : String) : String :=
  ⟨s.data.filter (· != c)⟩

/-- The key normalisation performed by `Guillotine2D.split_rectangle`:
`self.heuristic.lower().replace(" ", "").replace("_", "")`. -/
def guillotineKey (heuristic : String) : String :=
  removeChar '_' (removeChar ' ' (lowerString heuristic))

/-- `Guillotine2D.split_rectangle`: dispatch on the normalised key; an
unknown key raises `ValueError`. -/
def splitRectangle (heuristic : String) (rect : Rect) (it : Item) (x y : ℤ) :
    Except String (List Rect) :=
  let key := guillotineKey heuristic
  if key = "default" then .ok (splitDefault rect it x y)
  else if key = "alternative" then .ok (splitAlternative rect it x y)
  else if key = "shorterside" ∨ key = "shorter" then .ok (splitShorterSide rect it x y)
  else if key = "longerside" ∨ key = "longer" then .ok (splitLongerSide rect it x y)
  else .error ("Heurística desconocida: " ++ heuristic)

/-- The per-bin item loop of `Guillotine2D.pack`.  On a raised
`ValueError` the error value carries the bin as already mutated (the
item's position was set, `add_item` ran and the free rectangle was
popped before `split_rectangle` raised). -/
def gPackBin (heuristic : String) : List Item → Bin → List Rect →
    Except (String × Bin) (Bin × List Rect)
  | [], b, frs => .ok (b, frs)
  | it :: rest, b, frs =>
      match gFindPosition it frs with
      | none => gPackBin heuristic rest b frs
      | some (i, used) =>
          let it' := setPosition it used.x used.y
          let b' := (addItem b it').1
          match splitRectangle heuristic used it used.x used.y with
          | .error e => .error (e, b')
          | .ok newRects =>
              gPackBin heuristic rest b' (frs.eraseIdx i ++ newRects)

/-- `Guillotine2D.pack`: the OUTER loop ranges over bins, the INNER
loop over items, with no record of items already placed in earlier
bins.  On a raised error the whole (partially mutated) bin list is
reported, as the Python caller observes it. -/
def guillotinePack (heuristic : String) (items : List Item) :
    List Bin → Except (String × List Bin) (List Bin)
  | [] => .ok []
  | b :: rest =>
      match gPackBin heuristic items b [⟨0, 0, b.width, b.height⟩] with
      | .error (e, b') => .error (e, b' :: rest)
      | .ok (b', _) =>
          match guillotinePack heuristic items rest with
          | .error (e, bs) => .error (e, b' :: bs)
          | .ok bs => .ok (b' :: bs)

/-! ## MaxRects2D (`optimalbins/algorithms/_2d/maxrects.py`) -/

/-- `MaxRects2D.evaluate_position` (the contact-point score is
`rwidth + rheight`, negated).  An unrecognised heuristic silently falls
through to the `best_short_side_fit` score. -/
def evaluatePosition (heuristic : String) (r : Rect) (it : Item) : ℤ :=
  let leftoverHoriz := r.w - it.width
  let leftoverVert := r.h - it.height
  let key := lowerString heuristic
  if key = "best_short_side_fit" then min leftoverHoriz leftoverVert
  else if key = "best_long_side_fit" then max leftoverHoriz leftoverVert
  else if key = "best_area_fit" then r.w * r.h - it.width * it.height
  else if key = "bottom_left" then r.y * 10000 + r.x
  else if key = "contact_point_rule" then -(r.w + r.h)
  else min leftoverHoriz leftoverVert

/-- Does the free rectangle admit the item's size? -/
def admits (it : Item) (r : Rect) : Bool :=
  decide (it.width ≤ r.w) && decide (it.height ≤ r.h)

/-- The scan loop of `MaxRects2D.find_best_position`: accumulator
`(best_score, best_x, best_y, best_index)`, replaced only on a strictly
smaller score (`best_score is None or score < best_score`). -/
def findBestAux (heuristic : String) (it : Item) :
    ℕ → List Rect → Option (ℤ × ℤ × ℤ × ℕ) → Option (ℤ × ℤ × ℤ × ℕ)
  | _, [], acc => acc
  | idx, r :: rest, acc =>
      let acc' :=
        if admits it r then
          match acc with
          | none => some (evaluatePosition heuristic r it, r.x, r.y, idx)
          | some (bs, bx, by', bi) =>
              if evaluatePosition heuristic r it < bs then
                some (evaluatePosition heuristic r it, r.x, r.y, idx)
              else some (bs, bx, by', bi)
        else acc
      findBestAux heuristic it (idx + 1) rest acc'

/-- `MaxRects2D.find_best_position`. -/
def findBestPosition (heuristic : String) (frs : List Rect) (it : Item) :
    Option (ℤ × ℤ × ℕ) :=
  match findBestAux heuristic it 0 frs none with
  | some (_, x, y, i) => some (x, y, i)
  | none => none

/-- `MaxRects2D.rectangles_intersect`. -/
def rectanglesIntersect (fr pr : Rect) : Bool :=
  !(decide (pr.x + pr.w ≤ fr.x) || decide (fr.x + fr.w ≤ pr.x) ||
    decide (pr.y + pr.h ≤ fr.y) || decide (fr.y + fr.h ≤ pr.y))

/-- `MaxRects2D.split_free_rectangle`: up to four remainder rectangles
(above, below, left, right), then a positivity filter. -/
def splitFreeRectangle (fr pr : Rect) : List Rect :=
  let newRects : List Rect :=
    (if pr.y + pr.h < fr.y + fr.h then
      [⟨fr.x, pr.y + pr.h, fr.w, (fr.y + fr.h) - (pr.y + pr.h)⟩] else []) ++
    (if fr.y < pr.y then [⟨fr.x, fr.y, fr.w, pr.y - fr.y⟩] else []) ++
    (if fr.x < pr.x then [⟨fr.x, fr.y, pr.x - fr.x, fr.h⟩] else []) ++
    (if pr.x + pr.w < fr.x + fr.w then
      [⟨pr.x + pr.w, fr.y, (fr.x + fr.w) - (pr.x + pr.w), fr.h⟩] else [])
  newRects.filter fun r => decide (0 < r.w) && decide (0 < r.h)

/-- The containment test used by `MaxRects2D.prune_free_rectangles`
(inclusive bounds): `containsRect other r` holds when `r` lies inside
`other`. -/
def containsRect (other r : Rect) : Bool :=
  decide (other.x ≤ r.x) && decide (other.y ≤ r.y) &&
    decide (r.x + r.w ≤ other.x + other.w) &&
    decide (r.y + r.h ≤ other.y + other.h)

/-- The inner loop of `MaxRects2D.prune_free_rectangles`: is the
rectangle `r`, sitting at index `i` of the full list, contained in a
rectangle at some OTHER index?  `j` is the index of the head of the
remaining list. -/
def containedInOther (r : Rect) (i : ℕ) : ℕ → List Rect → Bool
  | _, [] => false
  | j, s :: rest =>
      ((j != i) && containsRect s r) || containedInOther r i (j + 1) rest

/-- The outer loop of `MaxRects2D.prune_free_rectangles`: `i` is the
index of the head of `l` within the full list. -/
def pruneAux (full : List Rect) : ℕ → List Rect → List Rect
  | _, [] => []
  | i, r :: rest =>
      if containedInOther r i 0 full then pruneAux full (i + 1) rest
      else r :: pruneAux full (i + 1) rest

/-- `MaxRects2D.prune_free_rectangles`. -/
def pruneFreeRectangles (S : List Rect) : List Rect := pruneAux S 0 S

/-- `MaxRects2D.update_free_rectangles`: split every intersecting free
rectangle, keep the others, then prune. -/
def updateFreeRectangles (frs : List Rect) (pr : Rect) : List Rect :=
  pruneFreeRectangles
    ((frs.map fun fr =>
      if rectanglesIntersect fr pr then splitFreeRectangle fr pr else [fr]).flatten)

/-- The per-bin item loop of `MaxRects2D.pack`. -/
def mrPackBin (heuristic : String) : List Item → Bin → List Rect → Bin × List Rect
  | [], b, frs => (b, pruneFreeRectangles frs)
  | it :: rest, b, frs =>
      match findBestPosition heuristic frs it with
      | none => mrPackBin heuristic rest b frs
      | some (x, y, _) =>
          let it' := setPosition it x y
          let b' := (addItem b it').1
          let placedRect : Rect := ⟨x, y, it.width, it.height⟩
          mrPackBin heuristic rest b' (updateFreeRectangles frs placedRect)

/-- `MaxRects2D.pack`: as with Guillotine, the OUTER loop ranges over
bins and every bin reconsiders the full item list. -/
def maxRectsPack (heuristic : String) (items : List Item) (bins : List Bin) :
    List Bin :=
  bins.map fun b => (mrPackBin heuristic items b [⟨0, 0, b.width, b.height⟩]).1

/-! ## Point coverage by a set of rectangles (used to state the
free-area-preservation claims about pruning). -/

/-- `coveredBy l x y`: the point `(x, y)` lies in (the closed extent of)
some rectangle of `l`. -/
def coveredBy (l : List Rect) (x y : ℤ) : Bool :=
  l.any fun r =>
    decide (r.x ≤ x) && decide (x ≤ r.x + r.w) &&
      decide (r.y ≤ y) && decide (y ≤ r.y + r.h)

/-! ## Claim C4 -/

/-- C4, counterexample: on a 5×5 bin with items A(2×3), B(3×2), C(1×1)
in that order, `BottomLeft2D.pack` places C at (2,2) — the candidate on
top of B, which has the strictly smaller `y` — not at (0,3) as the
claim states. -/
theorem scenarioA_C_lands_at_2_2_not_0_3 :
    bottomLeftPack
      [{ id := "A", width := 2, height := 3 }, { id := "B", width := 3, height := 2 },
       { id := "C", width := 1, height := 1 }]
      [{ id := "bin_1", width := 5, height := 5 }] =
    Except.ok [{ id := "bin_1", width := 5, height := 5, depth := none,
                 items := [{ id := "A", width := 2, height := 3, depth := none, x := 0, y := 0 },
                           { id := "B", width := 3, height := 2, depth := none, x := 2, y := 0 },
                           { id := "C", width := 1, height := 1, depth := none, x := 2, y := 2 }] }]
    ∧ ¬ (((2 : ℤ), (2 : ℤ)) = ((0 : ℤ), (3 : ℤ))) := by
  constructor
  · decide
  · decide

/-- C4, amended: A goes to (0,0), B to (2,0) and C to (2,2) (the valid
candidates for C are (0,3) and (2,2); the bottom-left rule prefers the
smaller `y = 2`).  The three placements are pairwise non-overlapping and
in bounds. -/
theorem scenarioA_positions_and_invariants :
    bottomLeftPack
      [{ id := "A", width := 2, height := 3 }, { id := "B", width := 3, height := 2 },
       { id := "C", width := 1, height := 1 }]
      [{ id := "bin_1", width := 5, height := 5 }] =
    Except.ok [{ id := "bin_1", width := 5, height := 5, depth := none,
                 items := [{ id := "A", width := 2, height := 3, depth := none, x := 0, y := 0 },
                           { id := "B", width := 3, height := 2, depth := none, x := 2, y := 0 },
                           { id := "C", width := 1, height := 1, depth := none, x := 2, y := 2 }] }]
    ∧ findPosition
        { id := "bin_1", width := 5, height := 5, depth := none,
          items := [{ id := "A", width := 2, height := 3, depth := none, x := 0, y := 0 },
                    { id := "B", width := 3, height := 2, depth := none, x := 2, y := 0 }] }
        { id := "C", width := 1, height := 1 } = some (2, 2)
    ∧ rectanglesOverlap 0 0 2 3 2 0 3 2 = false
    ∧ rectanglesOverlap 0 0 2 3 2 2 1 1 = false
    ∧ rectanglesOverlap 2 0 3 2 2 2 1 1 = false
    ∧ ((0 : ℤ) + 2 ≤ 5 ∧ (0 : ℤ) + 3 ≤ 5)
    ∧ ((2 : ℤ) + 3 ≤ 5 ∧ (0 : ℤ) + 2 ≤ 5)
    ∧ ((2 : ℤ) + 1 ≤ 5 ∧ (2 : ℤ) + 1 ≤ 5) := by
  refine ⟨by decide, by decide, by decide, by decide, by decide, by decide, by decide, by decide⟩

/-! ## Claim C5 -/

/-- C5, counterexample: `FirstFit2D.pack` on one empty 5×5 bin and a
single 6×4 item does create and append a clone of the first bin, but the
clone's `add_item` call re-runs `can_fit`, which rejects the oversized
item, so the item ends up in NO bin's item list (and FirstFit2D never
sets any position at all). -/
theorem firstFit_overflow_item_rejected :
    firstFitPack [{ id := "X", width := 6, height := 4 }]
      [{ id := "bin_1", width := 5, height := 5 }] =
    Except.ok [{ id := "bin_1", width := 5, height := 5, depth := none, items := [] },
               { id := "bin_2", width := 5, height := 5, depth := none, items := [] }] := by
  decide

/-- C5, amended: on a single bin that cannot fit the item, FirstFit2D
creates a clone of the bin (with the derived identifier and an empty
item list) and appends it, but the item is rejected by the clone's
`add_item` dimension check — the clone's item list stays empty and the
item is placed nowhere. -/
theorem firstFit_overflow_clone_stays_empty (it : Item) (b : Bin)
    (h : canFit b it = false) :
    firstFitPack [it] [b] =
      Except.ok [b, { id := "bin_" ++ toString ([b].length + 1),
                      width := b.width, height := b.height,
                      depth := b.depth, items := [] }] := by
  have hclone :
      canFit ⟨"bin_" ++ toString ([b].length + 1), b.width, b.height, b.depth, []⟩ it =
        canFit b it := rfl
  simp only [firstFitPack, ffPlaceInBins, h, Bool.false_eq_true, if_false,
    Option.map_none']
  simp only [addItem, hclone, h, Bool.false_eq_true, if_false]
  rfl

/-- Witness for `firstFit_overflow_clone_stays_empty` at the 6×4 item
and the 5×5 bin of the scenario. -/
theorem firstFit_overflow_clone_stays_empty_witness :
    firstFitPack [{ id := "X", width := 6, height := 4 }]
      [{ id := "bin_1", width := 5, height := 5 }] =
      Except.ok [{ id := "bin_1", width := 5, height := 5 },
                 { id := "bin_" ++ toString ([({ id := "bin_1", width := 5, height := 5 } : Bin)].length + 1),
                   width := 5, height := 5, depth := none, items := [] }] :=
  firstFit_overflow_clone_stays_empty
    { id := "X", width := 6, height := 4 } { id := "bin_1", width := 5, height := 5 }
    (by decide)

/-! ## Claim C7 -/

/-- C7, counterexample: on the free rectangle (0,0,10,10) with a 2×3
item placed at (0,0), `right_leftover = 8 > 7 = top_leftover`, so
`_split_shorter_side` takes its `else` branch and emits the right
remainder with the FULL rectangle height 10 — a rectangle the default
rule never emits (default produces height 3 there).  Dually for
`_split_longer_side` with a 3×2 item. -/
theorem split_side_rules_differ_from_default :
    splitShorterSide ⟨0, 0, 10, 10⟩ { id := "I", width := 2, height := 3 } 0 0 =
      [⟨0, 3, 10, 7⟩, ⟨2, 0, 8, 10⟩]
    ∧ splitDefault ⟨0, 0, 10, 10⟩ { id := "I", width := 2, height := 3 } 0 0 =
      [⟨2, 0, 8, 3⟩, ⟨0, 3, 10, 7⟩]
    ∧ ¬ (∀ r ∈ splitShorterSide ⟨0, 0, 10, 10⟩ { id := "I", width := 2, height := 3 } 0 0,
          r ∈ splitDefault ⟨0, 0, 10, 10⟩ { id := "I", width := 2, height := 3 } 0 0)
    ∧ splitLongerSide ⟨0, 0, 10, 10⟩ { id := "J", width := 3, height := 2 } 0 0 =
      [⟨0, 2, 10, 8⟩, ⟨3, 0, 7, 10⟩]
    ∧ ¬ (∀ r ∈ splitLongerSide ⟨0, 0, 10, 10⟩ { id := "J", width := 3, height := 2 } 0 0,
          r ∈ splitDefault ⟨0, 0, 10, 10⟩ { id := "J", width := 3, height := 2 } 0 0) := by
  refine ⟨by decide, by decide, by decide, by decide, by decide⟩

/-- C7, amended: when the preferred cut direction is the right cut
(`right_leftover ≤ top_leftover` for shorter_side, the reverse for
longer_side) the side rules emit exactly the default rule's rectangles
in the default order; in the opposite branch the top rectangle equals
the default one and emission order is swapped, but the right remainder
is emitted with the full original height `rect.h` instead of
`item.height`. -/
theorem split_side_rules_vs_default (rect : Rect) (it : Item) (x y : ℤ) :
    (((rect.x + rect.w) - (x + it.width) ≤ (rect.y + rect.h) - (y + it.height) →
        splitShorterSide rect it x y = splitDefault rect it x y)
      ∧ ((rect.y + rect.h) - (y + it.height) < (rect.x + rect.w) - (x + it.width) →
        splitShorterSide rect it x y =
          (if 0 < (rect.y + rect.h) - (y + it.height) then
            [⟨rect.x, y + it.height, rect.w, (rect.y + rect.h) - (y + it.height)⟩] else []) ++
          (if 0 < (rect.x + rect.w) - (x + it.width) then
            [⟨x + it.width, y, (rect.x + rect.w) - (x + it.width), rect.h⟩] else [])))
    ∧ (((rect.y + rect.h) - (y + it.height) ≤ (rect.x + rect.w) - (x + it.width) →
        splitLongerSide rect it x y = splitDefault rect it x y)
      ∧ ((rect.x + rect.w) - (x + it.width) < (rect.y + rect.h) - (y + it.height) →
        splitLongerSide rect it x y =
          (if 0 < (rect.y + rect.h) - (y + it.height) then
            [⟨rect.x, y + it.height, rect.w, (rect.y + rect.h) - (y + it.height)⟩] else []) ++
          (if 0 < (rect.x + rect.w) - (x + it.width) then
            [⟨x + it.width, y, (rect.x + rect.w) - (x + it.width), rect.h⟩] else []))) := by
  refine ⟨⟨fun hle => ?_, fun hlt => ?_⟩, ⟨fun hle => ?_, fun hlt => ?_⟩⟩
  · simp only [splitShorterSide, splitDefault, if_pos hle]
  · simp only [splitShorterSide, if_neg (not_le.mpr hlt)]
  · simp only [splitLongerSide, splitDefault, if_pos hle]
  · simp only [splitLongerSide, if_neg (not_le.mpr hlt)]

/-- Witness for `split_side_rules_vs_default`: both branches exercised
on the counterexample geometry. -/
theorem split_side_rules_vs_default_witness :
    splitShorterSide ⟨0, 0, 10, 10⟩ { id := "I", width := 2, height := 3 } 0 0 =
      (if (0 : ℤ) < 7 then [(⟨0, 3, 10, 7⟩ : Rect)] else []) ++
        (if (0 : ℤ) < 8 then [(⟨2, 0, 8, 10⟩ : Rect)] else []) :=
  (split_side_rules_vs_default ⟨0, 0, 10, 10⟩
    { id := "I", width := 2, height := 3 } 0 0).1.2 (by decide)

/-! ## Claim C10 -/

/-- C10: `add_item` appends exactly when `can_fit` accepts (width and
height within the bin; for a 3D bin additionally a present and fitting
depth), otherwise it returns `False` and leaves the bin unchanged; hence
a bin all of whose items pass the check keeps that property across any
`add_item` call. -/
theorem addItem_canFit_spec (b : Bin) (it : Item) :
    ((addItem b it).2 = true ↔ canFit b it = true)
    ∧ ((addItem b it).2 = true →
        (addItem b it).1 = { b with items := b.items ++ [it] })
    ∧ ((addItem b it).2 = false → (addItem b it).1 = b)
    ∧ (canFit b it = true ↔
        (it.width ≤ b.width ∧ it.height ≤ b.height ∧
          ∀ d, b.depth = some d → ∃ itd, it.depth = some itd ∧ itd ≤ d))
    ∧ ((∀ p ∈ b.items, canFit b p = true) →
        ∀ p ∈ (addItem b it).1.items, canFit b p = true) := by
  refine ⟨?_, ?_, ?_, ?_, ?_⟩
  · unfold addItem
    by_cases h : canFit b it = true
    · simp [h]
    · simp [h]
  · unfold addItem
    by_cases h : canFit b it = true
    · simp [h]
    · simp [h]
  · unfold addItem
    by_cases h : canFit b it = true
    · simp [h]
    · simp [h]
  · unfold canFit
    rcases hb : b.depth with _ | d <;> rcases hit : it.depth with _ | itd
    · simp [hb, hit]
    · simp [hb, hit]
    · simp [hb, hit]
    · simp [hb, hit]
      tauto
  · intro hall p hp
    unfold addItem at hp
    by_cases h : canFit b it = true
    · simp only [h, if_true] at hp
      simp only [List.mem_append, List.mem_singleton] at hp
      rcases hp with hp | rfl
      · exact hall p hp
      · exact h
    · simp only [h, if_false] at hp
      exact hall p hp

/-- Witness for `addItem_canFit_spec`: a 2×2 item accepted by an empty
5×5 bin. -/
theorem addItem_canFit_spec_witness :
    (addItem { id := "b", width := 5, height := 5 } { id := "i", width := 2, height := 2 }).1 =
      { id := "b", width := 5, height := 5, depth := none,
        items := [{ id := "i", width := 2, height := 2 }] } :=
  (addItem_canFit_spec { id := "b", width := 5, height := 5 }
      { id := "i", width := 2, height := 2 }).2.1
    (((addItem_canFit_spec { id := "b", width := 5, height := 5 }
      { id := "i", width := 2, height := 2 }).1).mpr (by decide))

/-! ## Claim C1, counterexample -/

/-- C1, counterexample: `Guillotine2D.pack` iterates bins in the OUTER
loop and items in the inner loop, with no record of items placed in
earlier bins; on two 10×10 bins the single 2×2 item "A" is placed into
BOTH bins (and its position is set once per bin). -/
theorem guillotine_places_item_in_two_bins :
    guillotinePack "default" [{ id := "A", width := 2, height := 2 }]
      [{ id := "b1", width := 10, height := 10 }, { id := "b2", width := 10, height := 10 }] =
    Except.ok
      [{ id := "b1", width := 10, height := 10, depth := none,
         items := [{ id := "A", width := 2, height := 2, depth := none, x := 0, y := 0 }] },
       { id := "b2", width := 10, height := 10, depth := none,
         items := [{ id := "A", width := 2, height := 2, depth := none, x := 0, y := 0 }] }] := by
  decide

/-! ## Claim C3, counterexample -/

/-- C3, counterexample: with the unknown heuristic name "mystery",
`Guillotine2D.pack` raises only from `split_rectangle`, AFTER the first
fitting item's position has been set and the item has been appended to
the bin (the error state carries the mutated bin), and
`MaxRects2D.pack` raises nothing at all — `evaluate_position` silently
falls back to the `best_short_side_fit` score and the item is placed. -/
theorem unknown_heuristic_not_rejected_up_front :
    guillotinePack "mystery" [{ id := "A", width := 2, height := 2 }]
      [{ id := "b1", width := 10, height := 10 }] =
    Except.error ("Heurística desconocida: mystery",
      [{ id := "b1", width := 10, height := 10, depth := none,
         items := [{ id := "A", width := 2, height := 2, depth := none, x := 0, y := 0 }] }])
    ∧ maxRectsPack "mystery" [{ id := "A", width := 2, height := 2 }]
        [{ id := "b1", width := 10, height := 10 }] =
      [{ id := "b1", width := 10, height := 10, depth := none,
         items := [{ id := "A", width := 2, height := 2, depth := none, x := 0, y := 0 }] }] := by
  exact ⟨by decide, by decide⟩

/-! ## Claim C6, counterexample -/

/-- C6, counterexample: on the list holding the SAME rectangle twice,
each copy is contained in the other (at a different index), so
`prune_free_rectangles` deletes BOTH and the pruned union no longer
covers the point (0,0) that the original union covers. -/
theorem prune_duplicates_lose_covered_area :
    pruneFreeRectangles [⟨0, 0, 1, 1⟩, ⟨0, 0, 1, 1⟩] = []
    ∧ ¬ (∀ x y : ℤ,
          coveredBy (pruneFreeRectangles [⟨0, 0, 1, 1⟩, ⟨0, 0, 1, 1⟩]) x y =
            coveredBy [⟨0, 0, 1, 1⟩, ⟨0, 0, 1, 1⟩] x y) := by
  constructor
  · decide
  · intro hno
    exact absurd (hno 0 0) (by decide)

/-! ## Claim C8, counterexample -/

/-- C8, counterexample: under `best_long_side_fit`,
`find_best_position` still keeps the MINIMUM score.  Both free
rectangles admit the 2×2 item; the long-side score of rectangle 0 is 8
and of rectangle 1 is 2, and the scan selects rectangle 1 — the one
with the smaller, not the larger, score. -/
theorem best_long_side_fit_selects_minimum :
    findBestPosition "best_long_side_fit"
      [⟨0, 0, 10, 3⟩, ⟨0, 5, 4, 4⟩] { id := "A", width := 2, height := 2 } =
      some (0, 5, 1)
    ∧ admits { id := "A", width := 2, height := 2 } ⟨0, 0, 10, 3⟩ = true
    ∧ admits { id := "A", width := 2, height := 2 } ⟨0, 5, 4, 4⟩ = true
    ∧ evaluatePosition "best_long_side_fit" ⟨0, 5, 4, 4⟩
        { id := "A", width := 2, height := 2 } <
      evaluatePosition "best_long_side_fit" ⟨0, 0, 10, 3⟩
        { id := "A", width := 2, height := 2 } := by
  refine ⟨by decide, by decide, by decide, by decide⟩

/-! ## Pruning: general characterisation -/

/-- Value-level keep-condition of `prune_free_rectangles`: a rectangle
(occurring at some index of `S`) survives the prune exactly when it
occurs only once in `S` and no OTHER rectangle of `S` contains it.
(With a duplicate, the copy at the other index contains it, so both
copies are deleted.) -/
def keepVal (S : List Rect) (r : Rect) : Bool :=
  decide (S.count r = 1) && !(S.any fun s => (s != r) && containsRect s r)

theorem containsRect_refl (r : Rect) : containsRect r r = true := by
  simp [containsRect]

theorem containsRect_trans {t s r : Rect} (hts : containsRect t s = true)
    (hsr : containsRect s r = true) : containsRect t r = true := by
  simp only [containsRect, Bool.and_eq_true, decide_eq_true_eq] at *
  omega

theorem containsRect_antisymm {s r : Rect} (hsr : containsRect s r = true)
    (hrs : containsRect r s = true) : s = r := by
  simp only [containsRect, Bool.and_eq_true, decide_eq_true_eq] at hsr hrs
  rcases s with ⟨sx, sy, sw, sh⟩
  rcases r with ⟨rx, ry, rw', rh⟩
  simp only [Rect.mk.injEq]
  simp only at hsr hrs
  omega

theorem keepVal_eq_true_iff (S : List Rect) (r : Rect) :
    keepVal S r = true ↔
      (S.count r = 1 ∧ ∀ s ∈ S, s ≠ r → containsRect s r = false) := by
  simp only [keepVal, Bool.and_eq_true, decide_eq_true_eq, Bool.not_eq_true',
    List.any_eq_false, Bool.and_eq_true, not_and, bne_iff_ne, Bool.not_eq_true]

theorem keepVal_eq_false_iff (S : List Rect) (r : Rect) :
    keepVal S r = false ↔
      (S.count r ≠ 1 ∨ ∃ s ∈ S, s ≠ r ∧ containsRect s r = true) := by
  rw [← Bool.not_eq_true, keepVal_eq_true_iff]
  constructor
  · intro h
    by_cases h1 : S.count r = 1
    · right
      by_contra hno
      push_neg at hno
      refine h ⟨h1, fun s hs hne => ?_⟩
      have hc := hno s hs hne
      cases hcv : containsRect s r with
      | false => rfl
      | true => exact absurd hcv hc
    · exact Or.inl h1
  · rintro (h1 | ⟨s, hs, hne, hc⟩) ⟨k1, k2⟩
    · exact h1 k1
    · rw [k2 s hs hne] at hc
      cases hc

/-- Once the scan offset has passed the excluded index `i`, the inner
prune loop is a plain containment scan. -/
theorem containedInOther_of_lt (r : Rect) (i : ℕ) :
    ∀ (l : List Rect) (j0 : ℕ), i < j0 →
      containedInOther r i j0 l = l.any fun s => containsRect s r := by
  intro l
  induction l with
  | nil => intro j0 _; simp [containedInOther]
  | cons s rest ih =>
    intro j0 hij
    have hne : (j0 != i) = true := by
      simp only [bne_iff_ne, ne_eq]
      omega
    simp only [containedInOther, List.any_cons, hne, Bool.true_and,
      ih (j0 + 1) (by omega)]

/-- The inner prune loop for the rectangle `r` sitting at overall index
`j0 + pre.length` of `pre ++ r :: rest` scans `pre` and `rest` and
skips the occurrence of `r` itself. -/
theorem containedInOther_middle_scan (r : Rect) (rest : List Rect) :
    ∀ (pre : List Rect) (j0 : ℕ),
      containedInOther r (j0 + pre.length) j0 (pre ++ r :: rest) =
        ((pre.any fun s => containsRect s r) ||
          (rest.any fun s => containsRect s r)) := by
  intro pre
  induction pre with
  | nil =>
    intro j0
    have hself : (j0 != j0 + ([] : List Rect).length) = false := by
      simp
    simp only [List.nil_append, containedInOther, hself, Bool.false_and,
      Bool.false_or, List.any_nil]
    exact containedInOther_of_lt r j0 rest (j0 + 1) (by omega)
  | cons p pre' ih =>
    intro j0
    have hne : (j0 != j0 + (p :: pre').length) = true := by
      simp only [bne_iff_ne, ne_eq, List.length_cons]
      omega
    have harith : j0 + (p :: pre').length = (j0 + 1) + pre'.length := by
      simp only [List.length_cons]
      omega
    simp only [List.cons_append, containedInOther, hne, Bool.true_and,
      List.any_cons, List.append_eq]
    rw [harith, ih (j0 + 1)]
    rw [Bool.or_assoc]

/-- At the index of `r` itself (with full list `pre ++ r :: rest` and
index `pre.length`), the inner loop decides exactly `!keepVal`. -/
theorem containedInOther_middle (pre rest : List Rect) (r : Rect) :
    containedInOther r pre.length 0 (pre ++ r :: rest) =
      !(keepVal (pre ++ r :: rest) r) := by
  have hscan := containedInOther_middle_scan r rest pre 0
  simp only [Nat.zero_add] at hscan
  rw [hscan, Bool.eq_iff_iff, Bool.or_eq_true, List.any_eq_true,
    List.any_eq_true, Bool.not_eq_true', keepVal_eq_false_iff]
  have hcount : (pre ++ r :: rest).count r = pre.count r + (rest.count r + 1) := by
    rw [List.count_append, List.count_cons_self]
  constructor
  · rintro (⟨s, hs, hc⟩ | ⟨s, hs, hc⟩)
    · by_cases hval : s = r
      · subst hval
        have : 0 < pre.count s := List.count_pos_iff.mpr hs
        left
        omega
      · exact Or.inr ⟨s, List.mem_append_left _ hs, hval, hc⟩
    · by_cases hval : s = r
      · subst hval
        have : 0 < rest.count s := List.count_pos_iff.mpr hs
        left
        omega
      · exact Or.inr ⟨s, List.mem_append_right _ (List.mem_cons_of_mem _ hs), hval, hc⟩
  · rintro (h1 | ⟨s, hs, hne, hc⟩)
    · have : 0 < pre.count r ∨ 0 < rest.count r := by omega
      rcases this with hp | hr
      · exact Or.inl ⟨r, List.count_pos_iff.mp hp, containsRect_refl r⟩
      · exact Or.inr ⟨r, List.count_pos_iff.mp hr, containsRect_refl r⟩
    · rcases List.mem_append.mp hs with hs' | hs'
      · exact Or.inl ⟨s, hs', hc⟩
      · rcases List.mem_cons.mp hs' with hs'' | hs''
        · exact absurd hs'' hne
        · exact Or.inr ⟨s, hs'', hc⟩

/-- The outer prune loop at offset `pre.length` over the suffix `suf`
of the full list `pre ++ suf` is the value-level filter by `keepVal`. -/
theorem pruneAux_eq_filter (suf : List Rect) :
    ∀ (pre : List Rect),
      pruneAux (pre ++ suf) pre.length suf =
        suf.filter (keepVal (pre ++ suf)) := by
  induction suf with
  | nil => intro pre; simp [pruneAux]
  | cons r rest ih =>
    intro pre
    have hrec := ih (pre ++ [r])
    rw [List.append_assoc] at hrec
    simp only [List.singleton_append, List.length_append, List.length_cons,
      List.length_nil, Nat.zero_add] at hrec
    show pruneAux (pre ++ r :: rest) pre.length (r :: rest) = _
    rw [List.filter_cons]
    simp only [pruneAux, containedInOther_middle pre rest r]
    cases hkv : keepVal (pre ++ r :: rest) r with
    | false => simpa [hkv] using hrec
    | true => simpa [hkv] using hrec

/-- `prune_free_rectangles` keeps exactly the rectangles that occur
once in the list and are contained in no other rectangle of it. -/
theorem prune_eq_filter (S : List Rect) :
    pruneFreeRectangles S = S.filter (keepVal S) := by
  have h := pruneAux_eq_filter S []
  simpa [pruneFreeRectangles] using h

/-! ## Claim C9 -/

/-- C9: pruning is idempotent.  A rectangle kept by `prune` occurs once
in `S` and has no distinct container in `S`; both properties persist in
the (sublist) pruned output, so a second prune keeps everything. -/
theorem prune_idempotent (S : List Rect) :
    pruneFreeRectangles (pruneFreeRectangles S) = pruneFreeRectangles S := by
  rw [prune_eq_filter S, prune_eq_filter (S.filter (keepVal S)),
    List.filter_eq_self]
  intro r hr
  have hrS : r ∈ S := (List.mem_filter.mp hr).1
  have hkS : keepVal S r = true := (List.mem_filter.mp hr).2
  rw [keepVal_eq_true_iff] at hkS ⊢
  obtain ⟨hcnt, hnone⟩ := hkS
  constructor
  · have hle : (S.filter (keepVal S)).count r ≤ S.count r :=
      (List.filter_sublist S).count_le r
    have hpos : 0 < (S.filter (keepVal S)).count r := List.count_pos_iff.mpr hr
    omega
  · intro s hs hne
    exact hnone s (List.mem_filter.mp hs).1 hne

/-! ## Claim C6, amended -/

/-- Filtering with a pointwise-weaker predicate yields at most as many
elements. -/
theorem length_filter_le_filter {α : Type} :
    ∀ (l : List α) (p q : α → Bool), (∀ x ∈ l, p x = true → q x = true) →
      (l.filter p).length ≤ (l.filter q).length := by
  intro l
  induction l with
  | nil => intro p q _; simp
  | cons a t ih =>
    intro p q h
    have ht : ∀ x ∈ t, p x = true → q x = true :=
      fun x hx => h x (List.mem_cons_of_mem _ hx)
    rw [List.filter_cons, List.filter_cons]
    cases hpa : p a with
    | false =>
      cases hqa : q a with
      | false => simpa using ih p q ht
      | true =>
        simp only [if_pos rfl, List.length_cons]
        exact Nat.le_succ_of_le (ih p q ht)
    | true =>
      have := h a (List.mem_cons_self a t) hpa
      simp only [this, if_pos rfl, List.length_cons]
      exact Nat.succ_le_succ (ih p q ht)

/-- Strict version: a member satisfying `q` but not `p` makes the
`p`-filter strictly shorter. -/
theorem length_filter_lt_filter {α : Type} :
    ∀ (l : List α) (p q : α → Bool), (∀ x ∈ l, p x = true → q x = true) →
      ∀ x ∈ l, q x = true → p x = false →
      (l.filter p).length < (l.filter q).length := by
  intro l
  induction l with
  | nil => intro p q _ x hx; cases hx
  | cons a t ih =>
    intro p q h x hx hqx hpx
    have ht : ∀ z ∈ t, p z = true → q z = true :=
      fun z hz => h z (List.mem_cons_of_mem _ hz)
    rw [List.filter_cons, List.filter_cons]
    rcases List.mem_cons.mp hx with rfl | hxt
    · rw [hpx, hqx]
      simp only [Bool.false_eq_true, if_false, if_pos rfl, List.length_cons]
      exact Nat.lt_succ_of_le (length_filter_le_filter t p q ht)
    · cases hpa : p a with
      | true =>
        have hqa := h a (List.mem_cons_self a t) hpa
        simp only [hqa, if_pos rfl, List.length_cons]
        exact Nat.succ_lt_succ (ih p q ht x hxt hqx hpx)
      | false =>
        cases hqa : q a with
        | false =>
          simp only [Bool.false_eq_true, if_false]
          exact ih p q ht x hxt hqx hpx
        | true =>
          simp only [Bool.false_eq_true, if_false, if_pos rfl, List.length_cons]
          exact Nat.lt_succ_of_le
            (Nat.le_of_lt (ih p q ht x hxt hqx hpx))

/-- Every rectangle of a duplicate-free list is contained in some
rectangle that survives the prune (possibly itself): walk up the strict
containment order, which is finite and acyclic. -/
theorem exists_kept_container (S : List Rect) (hnd : S.Nodup) :
    ∀ r ∈ S, ∃ m ∈ pruneFreeRectangles S, containsRect m r = true := by
  suffices h : ∀ n (r : Rect), r ∈ S →
      (S.filter fun t => containsRect t r && (t != r)).length = n →
      ∃ m ∈ pruneFreeRectangles S, containsRect m r = true by
    intro r hr
    exact h _ r hr rfl
  intro n
  induction n using Nat.strong_induction_on with
  | _ n ih =>
    intro r hr hlen
    by_cases hkept : keepVal S r = true
    · exact ⟨r, by
        rw [prune_eq_filter]
        exact List.mem_filter.mpr ⟨hr, hkept⟩, containsRect_refl r⟩
    · have hfalse : keepVal S r = false := by
        cases hkv : keepVal S r with
        | false => rfl
        | true => exact absurd hkv hkept
      rw [keepVal_eq_false_iff] at hfalse
      have hcnt : S.count r = 1 := List.count_eq_one_of_mem hnd hr
      rcases hfalse with h1 | ⟨s, hs, hne, hc⟩
      · exact absurd hcnt h1
      · have hdec : (S.filter fun t => containsRect t s && (t != s)).length <
            (S.filter fun t => containsRect t r && (t != r)).length := by
          apply length_filter_lt_filter S _ _ ?_ s hs ?_ ?_
          · intro t ht hts
            simp only [Bool.and_eq_true, bne_iff_ne] at hts ⊢
            obtain ⟨hts1, hts2⟩ := hts
            refine ⟨containsRect_trans hts1 hc, fun htr => ?_⟩
            subst htr
            exact hne (containsRect_antisymm hc hts1)
          · simp only [Bool.and_eq_true, bne_iff_ne]
            exact ⟨hc, hne⟩
          · simp
        obtain ⟨m, hm, hmc⟩ := ih _ (hlen ▸ hdec) s hs rfl
        exact ⟨m, hm, containsRect_trans hmc hc⟩

/-- A point of a contained rectangle lies in the container. -/
theorem point_mono {m r : Rect} (hc : containsRect m r = true) {x y : ℤ}
    (h : (decide (r.x ≤ x) && decide (x ≤ r.x + r.w) &&
          decide (r.y ≤ y) && decide (y ≤ r.y + r.h)) = true) :
    (decide (m.x ≤ x) && decide (x ≤ m.x + m.w) &&
      decide (m.y ≤ y) && decide (y ≤ m.y + m.h)) = true := by
  simp only [containsRect, Bool.and_eq_true, decide_eq_true_eq] at hc h ⊢
  omega

/-- C6, amended: on a duplicate-free list, every rectangle dropped by
`prune_free_rectangles` is contained in some surviving (hence distinct)
rectangle, and the union of the pruned set covers exactly the same
points as the union of the original set.  (With duplicates both copies
are deleted and covered area can be lost — see the counterexample.) -/
theorem prune_drops_only_contained_and_preserves_union
    (S : List Rect) (hnd : S.Nodup) :
    (∀ r ∈ S, r ∉ pruneFreeRectangles S →
      ∃ s ∈ pruneFreeRectangles S, s ≠ r ∧ containsRect s r = true)
    ∧ ∀ x y : ℤ, coveredBy (pruneFreeRectangles S) x y = coveredBy S x y := by
  constructor
  · intro r hr hnk
    obtain ⟨m, hm, hmc⟩ := exists_kept_container S hnd r hr
    refine ⟨m, hm, fun hmr => ?_, hmc⟩
    exact hnk (hmr ▸ hm)
  · intro x y
    rw [Bool.eq_iff_iff]
    simp only [coveredBy, List.any_eq_true]
    constructor
    · rintro ⟨r, hr, hcond⟩
      have hrS : r ∈ S := by
        rw [prune_eq_filter] at hr
        exact (List.mem_filter.mp hr).1
      exact ⟨r, hrS, hcond⟩
    · rintro ⟨r, hr, hcond⟩
      obtain ⟨m, hm, hmc⟩ := exists_kept_container S hnd r hr
      exact ⟨m, hm, point_mono hmc hcond⟩

/-- Witness for `prune_drops_only_contained_and_preserves_union` on a
concrete duplicate-free list with a contained rectangle. -/
theorem prune_preserves_union_witness :
    coveredBy (pruneFreeRectangles [⟨0, 0, 2, 2⟩, ⟨0, 0, 1, 1⟩]) 1 1 =
      coveredBy [⟨0, 0, 2, 2⟩, ⟨0, 0, 1, 1⟩] 1 1 :=
  (prune_drops_only_contained_and_preserves_union
    [⟨0, 0, 2, 2⟩, ⟨0, 0, 1, 1⟩] (by decide)).2 1 1

/-! ## Claim C8 -/

/-- Scan invariant of `find_best_position`: a `some` result is either
the untouched accumulator (then no listed admitting rectangle beats it)
or stems from position `idx + k` of the remaining list, beats the
accumulator strictly, is minimal among the listed admitting rectangles
and strictly beats every earlier listed admitting rectangle. -/
theorem findBestAux_spec (h : String) (it : Item) :
    ∀ (l : List Rect) (idx : ℕ) (acc : Option (ℤ × ℤ × ℤ × ℕ))
      (s x y : ℤ) (i : ℕ),
      findBestAux h it idx l acc = some (s, x, y, i) →
      ((acc = some (s, x, y, i) ∧
         ∀ k, ∀ (hk : k < l.length), admits it l[k] = true →
           s ≤ evaluatePosition h l[k] it)
       ∨ (∃ k, ∃ (hk : k < l.length), i = idx + k ∧ admits it l[k] = true ∧
           s = evaluatePosition h l[k] it ∧ x = l[k].x ∧ y = l[k].y ∧
           (∀ sa xa ya ia, acc = some (sa, xa, ya, ia) → s < sa) ∧
           (∀ k', ∀ (hk' : k' < l.length), admits it l[k'] = true →
             s ≤ evaluatePosition h l[k'] it) ∧
           (∀ k', ∀ (hk' : k' < l.length), k' < k → admits it l[k'] = true →
             s < evaluatePosition h l[k'] it))) := by
  intro l
  induction l with
  | nil =>
    intro idx acc s x y i hres
    left
    refine ⟨by simpa [findBestAux] using hres, ?_⟩
    intro k hk
    simp at hk
  | cons r rest ih =>
    intro idx acc s x y i hres
    simp only [findBestAux] at hres
    cases hadm : admits it r with
    | false =>
      rw [hadm] at hres
      simp only [Bool.false_eq_true, if_false] at hres
      rcases ih (idx + 1) acc s x y i hres with ⟨hacc, hmin⟩ |
        ⟨k, hk, hik, hadmk, hs, hx, hy, haccs, hmin, hstrict⟩
      · left
        refine ⟨hacc, ?_⟩
        intro k hk
        cases k with
        | zero => simp only [List.getElem_cons_zero, hadm]; intro hc; cases hc
        | succ k =>
          intro hadmk
          have := hmin k (by simpa using Nat.lt_of_succ_lt_succ hk)
            (by simpa using hadmk)
          simpa using this
      · right
        refine ⟨k + 1, by simpa using Nat.succ_lt_succ hk, by omega,
          by simpa using hadmk, by simpa using hs, by simpa using hx,
          by simpa using hy, haccs, ?_, ?_⟩
        · intro k' hk'
          cases k' with
          | zero => simp only [List.getElem_cons_zero, hadm]; intro hc; cases hc
          | succ k' =>
            intro ha
            have := hmin k' (by simpa using Nat.lt_of_succ_lt_succ hk')
              (by simpa using ha)
            simpa using this
        · intro k' hk' hlt
          cases k' with
          | zero => simp only [List.getElem_cons_zero, hadm]; intro hc; cases hc
          | succ k' =>
            intro ha
            have := hstrict k' (by simpa using Nat.lt_of_succ_lt_succ hk')
              (by omega) (by simpa using ha)
            simpa using this
    | true =>
      rw [hadm] at hres
      simp only [if_true] at hres
      cases acc with
      | none =>
        -- accumulator seeded with r itself
        rcases ih (idx + 1) (some (evaluatePosition h r it, r.x, r.y, idx))
            s x y i hres with ⟨hacc, hmin⟩ |
          ⟨k, hk, hik, hadmk, hs, hx, hy, haccs, hmin, hstrict⟩
        · right
          obtain ⟨h1, h2, h3, h4⟩ :
              s = evaluatePosition h r it ∧ x = r.x ∧ y = r.y ∧ i = idx := by
            have := hacc
            simp only [Option.some.injEq, Prod.mk.injEq] at this
            tauto
          refine ⟨0, by simp, by omega, by simpa using hadm, by simpa using h1,
            by simpa using h2, by simpa using h3, ?_, ?_, ?_⟩
          · intro sa xa ya ia hc; cases hc
          · intro k' hk'
            cases k' with
            | zero =>
              intro _
              simp only [List.getElem_cons_zero]
              rw [h1]
            | succ k' =>
              intro ha
              have := hmin k' (by simpa using Nat.lt_of_succ_lt_succ hk')
                (by simpa using ha)
              simpa using this
          · intro k' hk' hlt
            omega
        · right
          refine ⟨k + 1, by simpa using Nat.succ_lt_succ hk, by omega,
            by simpa using hadmk, by simpa using hs, by simpa using hx,
            by simpa using hy, ?_, ?_, ?_⟩
          · intro sa xa ya ia hc; cases hc
          · intro k' hk'
            cases k' with
            | zero =>
              intro _
              simp only [List.getElem_cons_zero]
              have := haccs (evaluatePosition h r it) r.x r.y idx rfl
              exact le_of_lt this
            | succ k' =>
              intro ha
              have := hmin k' (by simpa using Nat.lt_of_succ_lt_succ hk')
                (by simpa using ha)
              simpa using this
          · intro k' hk' hlt
            cases k' with
            | zero =>
              intro _
              simp only [List.getElem_cons_zero]
              exact haccs (evaluatePosition h r it) r.x r.y idx rfl
            | succ k' =>
              intro ha
              have := hstrict k' (by simpa using Nat.lt_of_succ_lt_succ hk')
                (by omega) (by simpa using ha)
              simpa using this
      | some a =>
        rcases a with ⟨bs, bx, by', bi⟩
        have hres2 : findBestAux h it (idx + 1) rest
            (if evaluatePosition h r it < bs then
              some (evaluatePosition h r it, r.x, r.y, idx)
            else some (bs, bx, by', bi)) = some (s, x, y, i) := hres
        by_cases hlt : evaluatePosition h r it < bs
        · rw [if_pos hlt] at hres2
          rcases ih (idx + 1) (some (evaluatePosition h r it, r.x, r.y, idx))
              s x y i hres2 with ⟨hacc, hmin⟩ |
            ⟨k, hk, hik, hadmk, hs, hx, hy, haccs, hmin, hstrict⟩
          · right
            obtain ⟨h1, h2, h3, h4⟩ :
                s = evaluatePosition h r it ∧ x = r.x ∧ y = r.y ∧ i = idx := by
              have := hacc
              simp only [Option.some.injEq, Prod.mk.injEq] at this
              tauto
            refine ⟨0, by simp, by omega, by simpa using hadm, by simpa using h1,
              by simpa using h2, by simpa using h3, ?_, ?_, ?_⟩
            · intro sa xa ya ia hc
              simp only [Option.some.injEq, Prod.mk.injEq] at hc
              obtain ⟨e1, _, _, _⟩ := hc
              rw [h1, ← e1]
              exact hlt
            · intro k' hk'
              cases k' with
              | zero =>
                intro _
                simp only [List.getElem_cons_zero]
                rw [h1]
              | succ k' =>
                intro ha
                have := hmin k' (by simpa using Nat.lt_of_succ_lt_succ hk')
                  (by simpa using ha)
                simpa using this
            · intro k' hk' hl2
              omega
          · right
            refine ⟨k + 1, by simpa using Nat.succ_lt_succ hk, by omega,
              by simpa using hadmk, by simpa using hs, by simpa using hx,
              by simpa using hy, ?_, ?_, ?_⟩
            · intro sa xa ya ia hc
              simp only [Option.some.injEq, Prod.mk.injEq] at hc
              obtain ⟨e1, _, _, _⟩ := hc
              have := haccs (evaluatePosition h r it) r.x r.y idx rfl
              rw [← e1]
              exact lt_trans this hlt
            · intro k' hk'
              cases k' with
              | zero =>
                intro _
                simp only [List.getElem_cons_zero]
                exact le_of_lt (haccs (evaluatePosition h r it) r.x r.y idx rfl)
              | succ k' =>
                intro ha
                have := hmin k' (by simpa using Nat.lt_of_succ_lt_succ hk')
                  (by simpa using ha)
                simpa using this
            · intro k' hk' hl2
              cases k' with
              | zero =>
                intro _
                simp only [List.getElem_cons_zero]
                exact haccs (evaluatePosition h r it) r.x r.y idx rfl
              | succ k' =>
                intro ha
                have := hstrict k' (by simpa using Nat.lt_of_succ_lt_succ hk')
                  (by omega) (by simpa using ha)
                simpa using this
        · rw [if_neg hlt] at hres2
          have hge : bs ≤ evaluatePosition h r it := le_of_not_lt hlt
          rcases ih (idx + 1) (some (bs, bx, by', bi)) s x y i hres2 with
            ⟨hacc, hmin⟩ | ⟨k, hk, hik, hadmk, hs, hx, hy, haccs, hmin, hstrict⟩
          · left
            obtain ⟨h1, h2, h3, h4⟩ : bs = s ∧ bx = x ∧ by' = y ∧ bi = i := by
              have := hacc
              simp only [Option.some.injEq, Prod.mk.injEq] at this
              tauto
            refine ⟨by rw [h1, h2, h3, h4], ?_⟩
            intro k hk2
            cases k with
            | zero =>
              intro _
              simp only [List.getElem_cons_zero]
              rw [← h1]
              exact hge
            | succ k =>
              intro ha
              have := hmin k (by simpa using Nat.lt_of_succ_lt_succ hk2)
                (by simpa using ha)
              simpa using this
          · right
            refine ⟨k + 1, by simpa using Nat.succ_lt_succ hk, by omega,
              by simpa using hadmk, by simpa using hs, by simpa using hx,
              by simpa using hy, ?_, ?_, ?_⟩
            · intro sa xa ya ia hc
              simp only [Option.some.injEq, Prod.mk.injEq] at hc
              obtain ⟨e1, _, _, _⟩ := hc
              rw [← e1]
              exact haccs bs bx by' bi rfl
            · intro k' hk'
              cases k' with
              | zero =>
                intro _
                simp only [List.getElem_cons_zero]
                exact le_trans (le_of_lt (haccs bs bx by' bi rfl)) hge
              | succ k' =>
                intro ha
                have := hmin k' (by simpa using Nat.lt_of_succ_lt_succ hk')
                  (by simpa using ha)
                simpa using this
            · intro k' hk' hl2
              cases k' with
              | zero =>
                intro _
                simp only [List.getElem_cons_zero]
                exact lt_of_lt_of_le (haccs bs bx by' bi rfl) hge
              | succ k' =>
                intro ha
                have := hstrict k' (by simpa using Nat.lt_of_succ_lt_succ hk')
                  (by omega) (by simpa using ha)
                simpa using this

/-- C8, amended: under `best_long_side_fit` — whose score is the
long-side leftover `max(leftover-width, leftover-height)`, first
conjunct — `find_best_position` selects an admitting free rectangle
whose score is MINIMAL among all admitting free rectangles (not
maximal, as claimed); ties are broken towards the first-encountered
rectangle (every earlier admitting rectangle scores strictly worse). -/
theorem bestLongSideFit_keeps_minimum (frs : List Rect) (it : Item)
    (x y : ℤ) (i : ℕ)
    (hres : findBestPosition "best_long_side_fit" frs it = some (x, y, i)) :
    (∀ (r : Rect) (itm : Item),
      evaluatePosition "best_long_side_fit" r itm =
        max (r.w - itm.width) (r.h - itm.height))
    ∧ ∃ (hi : i < frs.length),
        admits it frs[i] = true ∧ x = frs[i].x ∧ y = frs[i].y ∧
        (∀ j, ∀ (hj : j < frs.length), admits it frs[j] = true →
          evaluatePosition "best_long_side_fit" frs[i] it ≤
            evaluatePosition "best_long_side_fit" frs[j] it) ∧
        (∀ j, ∀ (hj : j < frs.length), j < i → admits it frs[j] = true →
          evaluatePosition "best_long_side_fit" frs[i] it <
            evaluatePosition "best_long_side_fit" frs[j] it) := by
  refine ⟨fun r itm => rfl, ?_⟩
  unfold findBestPosition at hres
  cases haux : findBestAux "best_long_side_fit" it 0 frs none with
  | none => rw [haux] at hres; cases hres
  | some q =>
    rcases q with ⟨s, x', y', i'⟩
    rw [haux] at hres
    simp only [Option.some.injEq, Prod.mk.injEq] at hres
    obtain ⟨hx', hy', hi'⟩ := hres
    rcases findBestAux_spec "best_long_side_fit" it frs 0 none s x' y' i' haux
      with ⟨hacc, _⟩ | ⟨k, hk, hik, hadmk, hs, hxx, hyy, _, hmin, hstrict⟩
    · cases hacc
    · have hki : k = i := by omega
      subst hki
      subst hx'
      subst hy'
      subst hi'
      refine ⟨hk, hadmk, hxx, hyy, ?_, ?_⟩
      · intro j hj ha
        have := hmin j hj ha
        rw [hs] at this
        exact this
      · intro j hj hlt ha
        have := hstrict j hj hlt ha
        rw [hs] at this
        exact this

/-- Witness for `bestLongSideFit_keeps_minimum`: on the two-rectangle
counterexample list the selected rectangle (index 1) scores no worse
than the admitting rectangle at index 0. -/
theorem bestLongSideFit_keeps_minimum_witness :
    evaluatePosition "best_long_side_fit" ⟨0, 5, 4, 4⟩
      { id := "A", width := 2, height := 2 } ≤
    evaluatePosition "best_long_side_fit" ⟨0, 0, 10, 3⟩
      { id := "A", width := 2, height := 2 } := by
  obtain ⟨heval, hi, hadm, hx, hy, hmin, hstrict⟩ :=
    bestLongSideFit_keeps_minimum [⟨0, 0, 10, 3⟩, ⟨0, 5, 4, 4⟩]
      { id := "A", width := 2, height := 2 } 0 5 1 (by decide)
  exact hmin 0 (by decide) (by decide)

/-! ## Claim C2 -/

/-- The per-bin invariant maintained by BottomLeft2D: every placed item
is in bounds with non-negative corner and strictly positive dimensions,
and placed items are pairwise non-overlapping. -/
def GoodBin (b : Bin) : Prop :=
  (∀ p ∈ b.items, 0 ≤ p.x ∧ 0 ≤ p.y ∧ p.x + p.width ≤ b.width ∧
    p.y + p.height ≤ b.height ∧ 0 < p.width ∧ 0 < p.height)
  ∧ b.items.Pairwise (fun p q =>
      rectanglesOverlap p.x p.y p.width p.height q.x q.y q.width q.height = false)

theorem goodBin_of_empty {b : Bin} (h : b.items = []) : GoodBin b := by
  constructor
  · intro p hp
    rw [h] at hp
    cases hp
  · rw [h]
    exact List.Pairwise.nil

theorem rectanglesOverlap_eq_false_iff (x1 y1 w1 h1 x2 y2 w2 h2 : ℤ) :
    rectanglesOverlap x1 y1 w1 h1 x2 y2 w2 h2 = false ↔
      (x1 + w1 ≤ x2 ∨ x2 + w2 ≤ x1 ∨ y1 + h1 ≤ y2 ∨ y2 + h2 ≤ y1) := by
  simp only [rectanglesOverlap, Bool.not_eq_false', Bool.or_eq_true,
    decide_eq_true_eq]
  omega

theorem rectanglesOverlap_comm (x1 y1 w1 h1 x2 y2 w2 h2 : ℤ)
    (h : rectanglesOverlap x1 y1 w1 h1 x2 y2 w2 h2 = false) :
    rectanglesOverlap x2 y2 w2 h2 x1 y1 w1 h1 = false := by
  rw [rectanglesOverlap_eq_false_iff] at h ⊢
  tauto

/-- Membership in the folded corner list. -/
theorem mem_corner_fold :
    ∀ (l : List Item) (c : ℤ × ℤ),
      c ∈ l.foldr
        (fun p acc => (p.x + p.width, p.y) :: (p.x, p.y + p.height) :: acc) [] →
      ∃ p ∈ l, c = (p.x + p.width, p.y) ∨ c = (p.x, p.y + p.height) := by
  intro l
  induction l with
  | nil => intro c hc; cases hc
  | cons p rest ih =>
    intro c h1
    simp only [List.foldr_cons] at h1
    rcases List.mem_cons.mp h1 with hc | h2
    · exact ⟨p, List.mem_cons_self p rest, Or.inl hc⟩
    · rcases List.mem_cons.mp h2 with hc | h3
      · exact ⟨p, List.mem_cons_self p rest, Or.inr hc⟩
      · obtain ⟨q, hq, hcq⟩ := ih c h3
        exact ⟨q, List.mem_cons_of_mem p hq, hcq⟩

/-- Membership in the candidate-corner list. -/
theorem mem_candidatePositions {b : Bin} {c : ℤ × ℤ}
    (h : c ∈ candidatePositions b) :
    c = (0, 0) ∨ ∃ p ∈ b.items,
      c = (p.x + p.width, p.y) ∨ c = (p.x, p.y + p.height) := by
  unfold candidatePositions at h
  rcases List.mem_cons.mp h with h0 | h1
  · exact Or.inl h0
  · exact Or.inr (mem_corner_fold b.items c h1)

/-- When the bin satisfies the invariant, every candidate corner has
non-negative coordinates. -/
theorem candidate_nonneg {b : Bin} (hg : GoodBin b) {c : ℤ × ℤ}
    (h : c ∈ candidatePositions b) : 0 ≤ c.1 ∧ 0 ≤ c.2 := by
  rcases mem_candidatePositions h with rfl | ⟨p, hp, hc | hc⟩
  · exact ⟨le_refl 0, le_refl 0⟩
  · obtain ⟨hx, hy, _, _, hw, _⟩ := hg.1 p hp
    subst hc
    constructor
    · simpa using add_nonneg hx (le_of_lt hw)
    · simpa using hy
  · obtain ⟨hx, hy, _, _, _, hh⟩ := hg.1 p hp
    subst hc
    constructor
    · simpa using hx
    · simpa using add_nonneg hy (le_of_lt hh)

/-- The lexicographic-minimum fold of `find_position` returns one of
the candidates it was given. -/
theorem foldl_min_mem :
    ∀ (cs : List (ℤ × ℤ)) (c : ℤ × ℤ),
      cs.foldl (fun best p =>
        if p.2 < best.2 ∨ (p.2 = best.2 ∧ p.1 < best.1) then p else best) c ∈
        c :: cs := by
  intro cs
  induction cs with
  | nil => intro c; simp
  | cons p cs ih =>
    intro c
    simp only [List.foldl_cons]
    rcases List.mem_cons.mp
        (ih (if p.2 < c.2 ∨ (p.2 = c.2 ∧ p.1 < c.1) then p else c)) with heq | hm
    · rw [heq]
      by_cases hc : p.2 < c.2 ∨ (p.2 = c.2 ∧ p.1 < c.1)
      · rw [if_pos hc]
        exact List.mem_cons_of_mem _ (List.mem_cons_self p cs)
      · rw [if_neg hc]
        exact List.mem_cons_self c _
    · exact List.mem_cons_of_mem _ (List.mem_cons_of_mem p hm)

/-- A successful `find_position` returns a valid candidate: in bounds
and overlapping no placed item. -/
theorem findPosition_mem_valid {b : Bin} {it : Item} {x y : ℤ}
    (h : findPosition b it = some (x, y)) :
    (x, y) ∈ validCandidates b it := by
  unfold findPosition at h
  rcases hvc : validCandidates b it with _ | ⟨c, cs⟩
  · rw [hvc] at h
    cases h
  · rw [hvc] at h
    simp only [Option.some.injEq] at h
    have hm := foldl_min_mem cs c
    rw [h] at hm
    exact hm

/-- Unpacking the filter of `find_position`. -/
theorem validCandidates_spec {b : Bin} {it : Item} {x y : ℤ}
    (h : (x, y) ∈ validCandidates b it) :
    (x, y) ∈ candidatePositions b ∧ x + it.width ≤ b.width ∧
      y + it.height ≤ b.height ∧
      ∀ p ∈ b.items,
        rectanglesOverlap x y it.width it.height p.x p.y p.width p.height
          = false := by
  obtain ⟨hmem, hcond⟩ := List.mem_filter.mp h
  simp only [Bool.and_eq_true, decide_eq_true_eq, Bool.not_eq_true'] at hcond
  obtain ⟨⟨h1, h2⟩, h3⟩ := hcond
  refine ⟨hmem, h1, h2, ?_⟩
  intro p hp
  have := List.any_eq_false.mp h3 p hp
  simpa using this

/-- `can_fit` always enforces the width and height bounds. -/
theorem canFit_width_height {b : Bin} {it : Item} (h : canFit b it = true) :
    it.width ≤ b.width ∧ it.height ≤ b.height := by
  unfold canFit at h
  rcases hb : b.depth with _ | d
  · rw [hb] at h
    simp only [Bool.and_eq_true, decide_eq_true_eq] at h
    exact h
  · rw [hb] at h
    rcases hit : it.depth with _ | itd
    · rw [hit] at h
      cases h
    · rw [hit] at h
      simp only [Bool.and_eq_true, decide_eq_true_eq] at h
      exact ⟨h.1.1, h.1.2⟩

/-- Placing an item at a position delivered by `find_position` (then
validated again by `add_item`) preserves the bin invariant. -/
theorem place_preserves_good {b : Bin} {it : Item} {x y : ℤ}
    (hg : GoodBin b) (hw : 0 < it.width) (hh : 0 < it.height)
    (hfp : findPosition b it = some (x, y)) :
    GoodBin (addItem b (setPosition it x y)).1 := by
  obtain ⟨hcand, hbx, hby, hnov⟩ := validCandidates_spec (findPosition_mem_valid hfp)
  obtain ⟨hx0, hy0⟩ := candidate_nonneg hg hcand
  unfold addItem
  by_cases hcf : canFit b (setPosition it x y) = true
  · rw [if_pos hcf]
    constructor
    · intro p hp
      simp only [List.mem_append, List.mem_singleton] at hp
      rcases hp with hp | rfl
      · exact hg.1 p hp
      · exact ⟨hx0, hy0, hbx, hby, hw, hh⟩
    · simp only
      rw [List.pairwise_append]
      refine ⟨hg.2, List.pairwise_singleton _ _, ?_⟩
      intro p hp q hq
      simp only [List.mem_singleton] at hq
      subst hq
      exact rectanglesOverlap_comm _ _ _ _ _ _ _ _ (hnov p hp)
  · rw [if_neg hcf]
    exact hg

/-- The bin scan of BottomLeft2D preserves the invariant on every bin
and the length of the bin list. -/
theorem blPlaceInBins_good {it : Item} (hw : 0 < it.width) (hh : 0 < it.height) :
    ∀ (bins : List Bin), (∀ b ∈ bins, GoodBin b) →
      ∀ bins', blPlaceInBins it bins = some bins' →
        (∀ b ∈ bins', GoodBin b) ∧ bins'.length = bins.length := by
  intro bins
  induction bins with
  | nil =>
    intro _ bins' h
    cases h
  | cons b rest ih =>
    intro hg bins' h
    simp only [blPlaceInBins] at h
    rcases hfp : findPosition b it with _ | c
    · rw [hfp] at h
      rcases hrec : blPlaceInBins it rest with _ | rest'
      · rw [hrec] at h
        cases h
      · rw [hrec] at h
        simp only [Option.map_some', Option.some.injEq] at h
        subst h
        obtain ⟨hrg, hrl⟩ := ih (fun q hq => hg q (List.mem_cons_of_mem b hq))
          rest' hrec
        constructor
        · intro q hq
          rcases List.mem_cons.mp hq with rfl | hq'
          · exact hg q (List.mem_cons_self q rest)
          · exact hrg q hq'
        · simp [hrl]
    · rw [hfp] at h
      rcases c with ⟨x, y⟩
      simp only [Option.some.injEq] at h
      subst h
      constructor
      · intro q hq
        rcases List.mem_cons.mp hq with rfl | hq'
        · exact place_preserves_good (hg b (List.mem_cons_self b rest)) hw hh hfp
        · exact hg q (List.mem_cons_of_mem b hq')
      · simp
    
/-- The overflow bin created by BottomLeft2D satisfies the invariant. -/
theorem overflow_bin_good {base : Bin} {it : Item} (hw : 0 < it.width)
    (hh : 0 < it.height) (n : ℕ) :
    GoodBin (addItem
      { id := "bin_" ++ toString n, width := base.width, height := base.height,
        depth := base.depth, items := [] } (setPosition it 0 0)).1 := by
  unfold addItem
  by_cases hcf : canFit
      { id := "bin_" ++ toString n, width := base.width, height := base.height,
        depth := base.depth, items := ([] : List Item) } (setPosition it 0 0) = true
  · rw [if_pos hcf]
    obtain ⟨hbw, hbh⟩ := canFit_width_height hcf
    simp only [setPosition] at hbw hbh
    constructor
    · intro p hp
      simp only [List.nil_append, List.mem_singleton] at hp
      subst hp
      simp only [setPosition]
      refine ⟨le_refl 0, le_refl 0, ?_, ?_, hw, hh⟩
      · omega
      · omega
    · simp only [List.nil_append]
      exact List.pairwise_singleton _ _
  · rw [if_neg hcf]
    exact goodBin_of_empty rfl

/-- BottomLeft2D's main loop: with positive items and a non-empty,
invariant-satisfying bin list, `pack` succeeds and every resulting bin
satisfies the invariant. -/
theorem bottomLeftPack_good :
    ∀ (items : List Item) (bins : List Bin),
      (∀ p ∈ items, 0 < p.width ∧ 0 < p.height) →
      (∀ b ∈ bins, GoodBin b) → bins ≠ [] →
      ∃ bs, bottomLeftPack items bins = Except.ok bs ∧
        (∀ b ∈ bs, GoodBin b) ∧ bs ≠ [] := by
  intro items
  induction items with
  | nil =>
    intro bins _ hg hne
    exact ⟨bins, rfl, hg, hne⟩
  | cons it rest ih =>
    intro bins hpos hg hne
    have hw : 0 < it.width := (hpos it (List.mem_cons_self it rest)).1
    have hh : 0 < it.height := (hpos it (List.mem_cons_self it rest)).2
    have hposr : ∀ p ∈ rest, 0 < p.width ∧ 0 < p.height :=
      fun p hp => hpos p (List.mem_cons_of_mem it hp)
    rcases hpl : blPlaceInBins it bins with _ | bins'
    · rcases hbins : bins with _ | ⟨base, brest⟩
      · exact absurd hbins hne
      · subst hbins
        obtain ⟨bs, heq, hbg, hbne⟩ := ih ((base :: brest) ++
            [(addItem
              { id := "bin_" ++ toString ((base :: brest).length + 1),
                width := base.width, height := base.height,
                depth := base.depth, items := [] } (setPosition it 0 0)).1])
          hposr
          (by
            intro b hb
            rcases List.mem_append.mp hb with hb' | hb'
            · exact hg b hb'
            · rcases List.mem_singleton.mp hb' with rfl
              exact overflow_bin_good hw hh _)
          (by simp)
        refine ⟨bs, ?_, hbg, hbne⟩
        simp only [bottomLeftPack, hpl]
        exact heq
    · obtain ⟨hg', hlen⟩ := blPlaceInBins_good hw hh bins hg bins' hpl
      have hne' : bins' ≠ [] := by
        intro hc
        rw [hc] at hlen
        simp only [List.length_nil] at hlen
        exact hne (List.length_eq_zero.mp hlen.symm)
      obtain ⟨bs, heq, hbg, hbne⟩ := ih bins' hposr hg' hne'
      refine ⟨bs, ?_, hbg, hbne⟩
      simp only [bottomLeftPack, hpl]
      exact heq

/-- C2: a BottomLeft2D run on items with strictly positive dimensions
and a non-empty list of initially empty bins succeeds, and afterwards
every two items in the same bin do not overlap (edge contact allowed)
and every placed item lies within its bin's bounds with non-negative
coordinates. -/
theorem bottomLeft_no_overlap_in_bounds (items : List Item) (bins : List Bin)
    (hpos : ∀ p ∈ items, 0 < p.width ∧ 0 < p.height)
    (hempty : ∀ b ∈ bins, b.items = [])
    (hne : bins ≠ []) :
    ∃ bs, bottomLeftPack items bins = Except.ok bs ∧
      ∀ b ∈ bs,
        b.items.Pairwise (fun p q =>
          rectanglesOverlap p.x p.y p.width p.height
            q.x q.y q.width q.height = false) ∧
        ∀ p ∈ b.items, 0 ≤ p.x ∧ 0 ≤ p.y ∧
          p.x + p.width ≤ b.width ∧ p.y + p.height ≤ b.height := by
  obtain ⟨bs, heq, hbg, _⟩ := bottomLeftPack_good items bins hpos
    (fun b hb => goodBin_of_empty (hempty b hb)) hne
  refine ⟨bs, heq, ?_⟩
  intro b hb
  refine ⟨(hbg b hb).2, ?_⟩
  intro p hp
  obtain ⟨h1, h2, h3, h4, _, _⟩ := (hbg b hb).1 p hp
  exact ⟨h1, h2, h3, h4⟩

/-- Witness for `bottomLeft_no_overlap_in_bounds`: in the scenario-A
run the item C placed at (2,2) is in bounds of the 5×5 bin. -/
theorem bottomLeft_no_overlap_in_bounds_witness :
    (0 : ℤ) ≤ 2 ∧ (0 : ℤ) ≤ 2 ∧ (2 : ℤ) + 1 ≤ 5 ∧ (2 : ℤ) + 1 ≤ 5 := by
  obtain ⟨bs, heq, hinv⟩ := bottomLeft_no_overlap_in_bounds
    [{ id := "A", width := 2, height := 3 },
     { id := "B", width := 3, height := 2 },
     { id := "C", width := 1, height := 1 }]
    [{ id := "bin_1", width := 5, height := 5 }] (by decide) (by decide) (by decide)
  have hconc : bottomLeftPack
      [{ id := "A", width := 2, height := 3 },
       { id := "B", width := 3, height := 2 },
       { id := "C", width := 1, height := 1 }]
      [{ id := "bin_1", width := 5, height := 5 }] =
      Except.ok [⟨"bin_1", 5, 5, none,
        [⟨"A", 2, 3, none, 0, 0⟩, ⟨"B", 3, 2, none, 2, 0⟩,
         ⟨"C", 1, 1, none, 2, 2⟩]⟩] := by
    decide
  rw [heq] at hconc
  simp only [Except.ok.injEq] at hconc
  subst hconc
  have hC := (hinv _ (List.mem_cons_self _ _)).2
    { id := "C", width := 1, height := 1, depth := none, x := 2, y := 2 }
    (by decide)
  exact hC

/-! ## Claim C1, amended -/

/-- Per-bin processing of Guillotine2D: the bin receives (at most) a
sublist of the input items — each input item is considered once per
bin, so it can enter a given bin at most once. -/
theorem gPackBin_ids (h : String) :
    ∀ (items : List Item) (b : Bin) (frs : List Rect) (b' : Bin)
      (frs' : List Rect),
      gPackBin h items b frs = Except.ok (b', frs') →
      ∃ t, b'.items.map Item.id = b.items.map Item.id ++ t ∧
        t.Sublist (items.map Item.id) := by
  intro items
  induction items with
  | nil =>
    intro b frs b' frs' hres
    simp only [gPackBin, Except.ok.injEq, Prod.mk.injEq] at hres
    exact ⟨[], by simp [hres.1], List.nil_sublist _⟩
  | cons it rest ih =>
    intro b frs b' frs' hres
    simp only [gPackBin] at hres
    rcases hfp : gFindPosition it frs with _ | p
    · rw [hfp] at hres
      obtain ⟨t, ht, hsub⟩ := ih b frs b' frs' hres
      exact ⟨t, ht, hsub.cons _⟩
    · rcases p with ⟨i, used⟩
      simp only [hfp] at hres
      rcases hsp : splitRectangle h used it used.x used.y with e | newRects
      · simp only [hsp] at hres
        cases hres
      · simp only [hsp] at hres
        obtain ⟨t, ht, hsub⟩ :=
          ih ((addItem b (setPosition it used.x used.y)).1)
            (frs.eraseIdx i ++ newRects) b' frs' hres
        unfold addItem at ht
        by_cases hcf : canFit b (setPosition it used.x used.y) = true
        · rw [if_pos hcf] at ht
          simp only [List.map_append, List.map_cons, List.map_nil] at ht
          refine ⟨Item.id it :: t, ?_, hsub.cons₂ _⟩
          rw [ht]
          simp [setPosition]
        · rw [if_neg hcf] at ht
          exact ⟨t, ht, hsub.cons _⟩

/-- Bin-list form of `gPackBin_ids`: every bin of a successful
Guillotine2D run extends some input bin by a sublist of the items. -/
theorem guillotinePack_ids (h : String) (items : List Item) :
    ∀ (bins : List Bin) (bs : List Bin),
      guillotinePack h items bins = Except.ok bs →
      ∀ b' ∈ bs, ∃ b ∈ bins, ∃ t,
        b'.items.map Item.id = b.items.map Item.id ++ t ∧
          t.Sublist (items.map Item.id) := by
  intro bins
  induction bins with
  | nil =>
    intro bs hres b' hb'
    simp only [guillotinePack, Except.ok.injEq] at hres
    rw [← hres] at hb'
    cases hb'
  | cons b rest ih =>
    intro bs hres b' hb'
    simp only [guillotinePack] at hres
    rcases hpb : gPackBin h items b [⟨0, 0, b.width, b.height⟩] with ⟨e, bb⟩ | ⟨bb, frs2⟩
    · rw [hpb] at hres
      cases hres
    · rw [hpb] at hres
      rcases hrec : guillotinePack h items rest with ⟨e, bs2⟩ | bs2
      · rw [hrec] at hres
        cases hres
      · rw [hrec] at hres
        simp only [Except.ok.injEq] at hres
        subst hres
        rcases List.mem_cons.mp hb' with rfl | hb2
        · obtain ⟨t, ht, hsub⟩ := gPackBin_ids h items b _ b' frs2 hpb
          exact ⟨b, List.mem_cons_self b rest, t, ht, hsub⟩
        · obtain ⟨b0, hb0, t, ht, hsub⟩ := ih bs2 hrec b' hb2
          exact ⟨b0, List.mem_cons_of_mem b hb0, t, ht, hsub⟩

/-- Per-bin processing of MaxRects2D: same sublist property. -/
theorem mrPackBin_ids (h : String) :
    ∀ (items : List Item) (b : Bin) (frs : List Rect),
      ∃ t, (mrPackBin h items b frs).1.items.map Item.id =
        b.items.map Item.id ++ t ∧ t.Sublist (items.map Item.id) := by
  intro items
  induction items with
  | nil =>
    intro b frs
    exact ⟨[], by simp [mrPackBin], List.nil_sublist _⟩
  | cons it rest ih =>
    intro b frs
    rcases hfp : findBestPosition h frs it with _ | p
    · simp only [mrPackBin, hfp]
      obtain ⟨t, ht, hsub⟩ := ih b frs
      exact ⟨t, ht, hsub.cons _⟩
    · rcases p with ⟨x, y, i⟩
      simp only [mrPackBin, hfp]
      obtain ⟨t, ht, hsub⟩ := ih ((addItem b (setPosition it x y)).1)
        (updateFreeRectangles frs ⟨x, y, it.width, it.height⟩)
      by_cases hcf : canFit b (setPosition it x y) = true
      · have haddi : (addItem b (setPosition it x y)).1 =
            { b with items := b.items ++ [setPosition it x y] } := by
          unfold addItem
          rw [if_pos hcf]
        rw [haddi] at ht
        simp only [List.map_append, List.map_cons, List.map_nil] at ht
        refine ⟨Item.id it :: t, ?_, hsub.cons₂ _⟩
        rw [haddi, ht]
        simp [setPosition]
      · have haddn : (addItem b (setPosition it x y)).1 = b := by
          unfold addItem
          rw [if_neg hcf]
        rw [haddn] at ht
        refine ⟨t, ?_, hsub.cons _⟩
        rw [haddn]
        exact ht

/-- C1, amended: Guillotine2D and MaxRects2D iterate BINS in the outer
loop and reconsider the whole item list for every bin, so an item can
be placed into several bins (see the two-bin counterexample); what does
hold is per-bin uniqueness: in every bin of the result of a run that
starts from empty bins with pairwise-distinct item ids, each item
appears at most once (the bin's id list is duplicate-free). -/
theorem per_bin_single_placement (h : String) (items : List Item)
    (bins : List Bin) (hids : (items.map Item.id).Nodup)
    (hempty : ∀ b ∈ bins, b.items = []) :
    (∀ bs, guillotinePack h items bins = Except.ok bs →
      ∀ b' ∈ bs, (b'.items.map Item.id).Nodup)
    ∧ (∀ b' ∈ maxRectsPack h items bins, (b'.items.map Item.id).Nodup) := by
  constructor
  · intro bs hres b' hb'
    obtain ⟨b, hb, t, ht, hsub⟩ := guillotinePack_ids h items bins bs hres b' hb'
    rw [ht, hempty b hb]
    simp only [List.map_nil, List.nil_append]
    exact hsub.nodup hids
  · intro b' hb'
    unfold maxRectsPack at hb'
    obtain ⟨b, hb, hbeq⟩ := List.mem_map.mp hb'
    obtain ⟨t, ht, hsub⟩ := mrPackBin_ids h items b [⟨0, 0, b.width, b.height⟩]
    rw [← hbeq, ht, hempty b hb]
    simp only [List.map_nil, List.nil_append]
    exact hsub.nodup hids

/-- Witness for `per_bin_single_placement`: on the two-bin input of the
counterexample, the first result bin's item-id list is duplicate-free. -/
theorem per_bin_single_placement_witness :
    (([{ id := "A", width := 2, height := 2, depth := none, x := 0, y := 0 }] :
        List Item).map Item.id).Nodup :=
  (per_bin_single_placement "default" [{ id := "A", width := 2, height := 2 }]
    [{ id := "b1", width := 10, height := 10 },
     { id := "b2", width := 10, height := 10 }]
    (by decide) (by decide)).2
    { id := "b1", width := 10, height := 10, depth := none,
      items := [{ id := "A", width := 2, height := 2, depth := none, x := 0, y := 0 }] }
    (by decide)

/-! ## Claim C3, amended -/

/-- With an unrecognised normalised key, `split_rectangle` raises. -/
theorem splitRectangle_unknown (h : String)
    (hkey : guillotineKey h ∉
      (["default", "alternative", "shorterside", "shorter",
        "longerside", "longer"] : List String))
    (rect : Rect) (it : Item) (x y : ℤ) :
    splitRectangle h rect it x y =
      Except.error ("Heurística desconocida: " ++ h) := by
  simp only [List.mem_cons, List.not_mem_nil, or_false, not_or] at hkey
  obtain ⟨h1, h2, h3, h4, h5, h6⟩ := hkey
  unfold splitRectangle
  rw [if_neg h1, if_neg h2, if_neg (not_or.mpr ⟨h3, h4⟩),
    if_neg (not_or.mpr ⟨h5, h6⟩)]

/-- With an unknown heuristic, the per-bin Guillotine loop can only
return successfully by never placing anything: the first successful
placement reaches `split_rectangle` and raises. -/
theorem gPackBin_unknown (h : String)
    (hkey : guillotineKey h ∉
      (["default", "alternative", "shorterside", "shorter",
        "longerside", "longer"] : List String)) :
    ∀ (items : List Item) (b : Bin) (frs : List Rect) (b' : Bin)
      (frs' : List Rect),
      gPackBin h items b frs = Except.ok (b', frs') → b' = b ∧ frs' = frs := by
  intro items
  induction items with
  | nil =>
    intro b frs b' frs' hres
    simp only [gPackBin, Except.ok.injEq, Prod.mk.injEq] at hres
    exact ⟨hres.1.symm, hres.2.symm⟩
  | cons it rest ih =>
    intro b frs b' frs' hres
    simp only [gPackBin] at hres
    rcases hfp : gFindPosition it frs with _ | p
    · rw [hfp] at hres
      exact ih b frs b' frs' hres
    · rcases p with ⟨i, used⟩
      simp only [hfp] at hres
      rw [splitRectangle_unknown h hkey used it used.x used.y] at hres
      cases hres

/-- With an unknown heuristic, a successful Guillotine2D run leaves the
bin list untouched. -/
theorem guillotinePack_unknown (h : String)
    (hkey : guillotineKey h ∉
      (["default", "alternative", "shorterside", "shorter",
        "longerside", "longer"] : List String)) :
    ∀ (items : List Item) (bins : List Bin) (bs : List Bin),
      guillotinePack h items bins = Except.ok bs → bs = bins := by
  intro items bins
  induction bins with
  | nil =>
    intro bs hres
    simp only [guillotinePack, Except.ok.injEq] at hres
    exact hres.symm
  | cons b rest ih =>
    intro bs hres
    simp only [guillotinePack] at hres
    rcases hpb : gPackBin h items b [⟨0, 0, b.width, b.height⟩] with ⟨e, bb⟩ | ⟨bb, frs2⟩
    · rw [hpb] at hres
      cases hres
    · rw [hpb] at hres
      rcases hrec : guillotinePack h items rest with ⟨e, bs2⟩ | bs2
      · rw [hrec] at hres
        cases hres
      · rw [hrec] at hres
        simp only [Except.ok.injEq] at hres
        obtain ⟨hbb, _⟩ := gPackBin_unknown h hkey items b _ bb frs2 hpb
        rw [← hres, hbb, ih bs2 hrec]

/-- With a key unknown to MaxRects, `evaluate_position` silently falls
back to the `best_short_side_fit` score. -/
theorem evaluatePosition_unknown (h : String)
    (hm : lowerString h ∉
      (["best_short_side_fit", "best_long_side_fit", "best_area_fit",
        "bottom_left", "contact_point_rule"] : List String))
    (r : Rect) (it : Item) :
    evaluatePosition h r it = evaluatePosition "best_short_side_fit" r it := by
  simp only [List.mem_cons, List.not_mem_nil, or_false, not_or] at hm
  obtain ⟨m1, m2, m3, m4, m5⟩ := hm
  simp only [evaluatePosition]
  rw [if_neg m1, if_neg m2, if_neg m3, if_neg m4, if_neg m5,
    if_pos (show lowerString "best_short_side_fit" = "best_short_side_fit"
      from by decide)]

/-- The scan of `find_best_position` only consults the heuristic via
`evaluate_position`. -/
theorem findBestAux_congr (h h' : String) (it : Item)
    (heval : ∀ r, evaluatePosition h r it = evaluatePosition h' r it) :
    ∀ (l : List Rect) (idx : ℕ) (acc : Option (ℤ × ℤ × ℤ × ℕ)),
      findBestAux h it idx l acc = findBestAux h' it idx l acc := by
  intro l
  induction l with
  | nil => intro idx acc; rfl
  | cons r rest ih =>
    intro idx acc
    simp only [findBestAux, heval r]
    exact ih (idx + 1) _

theorem findBestPosition_congr (h h' : String) (it : Item)
    (heval : ∀ r, evaluatePosition h r it = evaluatePosition h' r it)
    (frs : List Rect) :
    findBestPosition h frs it = findBestPosition h' frs it := by
  unfold findBestPosition
  rw [findBestAux_congr h h' it heval frs 0 none]

theorem mrPackBin_congr (h h' : String)
    (heval : ∀ (r : Rect) (itm : Item),
      evaluatePosition h r itm = evaluatePosition h' r itm) :
    ∀ (items : List Item) (b : Bin) (frs : List Rect),
      mrPackBin h items b frs = mrPackBin h' items b frs := by
  intro items
  induction items with
  | nil => intro b frs; rfl
  | cons it rest ih =>
    intro b frs
    simp only [mrPackBin,
      findBestPosition_congr h h' it (fun r => heval r it) frs]
    rcases hfp : findBestPosition h' frs it with _ | p
    · exact ih b frs
    · rcases p with ⟨x, y, i⟩
      exact ih _ _

/-- C3, amended: an unknown heuristic name is NOT rejected up front.
For Guillotine2D the `ValueError` surfaces only from `split_rectangle`,
i.e. after the first successful placement has already set the item's
position, run `add_item` and popped the free rectangle (see the
counterexample for the mutated error state); consequently a run that
returns normally placed nothing and left the bins untouched.  For
MaxRects2D no error exists at all: `evaluate_position` silently scores
with the `best_short_side_fit` rule, and the whole run coincides with a
`best_short_side_fit` run. -/
theorem unknown_heuristic_semantics (h : String)
    (hg : guillotineKey h ∉
      (["default", "alternative", "shorterside", "shorter",
        "longerside", "longer"] : List String))
    (hm : lowerString h ∉
      (["best_short_side_fit", "best_long_side_fit", "best_area_fit",
        "bottom_left", "contact_point_rule"] : List String)) :
    (∀ (items : List Item) (bins bs : List Bin),
      guillotinePack h items bins = Except.ok bs → bs = bins)
    ∧ (∀ (items : List Item) (bins : List Bin),
        maxRectsPack h items bins =
          maxRectsPack "best_short_side_fit" items bins) := by
  constructor
  · intro items bins bs hres
    exact guillotinePack_unknown h hg items bins bs hres
  · intro items bins
    unfold maxRectsPack
    apply List.map_congr_left
    intro b _
    rw [mrPackBin_congr h "best_short_side_fit"
      (fun r itm => evaluatePosition_unknown h hm r itm) items b]

/-- Witness for `unknown_heuristic_semantics` at the name "mystery". -/
theorem unknown_heuristic_semantics_witness :
    maxRectsPack "mystery" [{ id := "A", width := 2, height := 2 }]
        [{ id := "b1", width := 10, height := 10 }] =
      maxRectsPack "best_short_side_fit" [{ id := "A", width := 2, height := 2 }]
        [{ id := "b1", width := 10, height := 10 }] :=
  (unknown_heuristic_semantics "mystery" (by decide) (by decide)).2
    [{ id := "A", width := 2, height := 2 }]
    [{ id := "b1", width := 10, height := 10 }]
